import Mathlib

/-!
Verification of the Kodaikanal landslide dashboard (src/app.py).

The development shallowly embeds the algorithmic core of the dashboard:

* the tiling / zero-padding / batched-prediction / stitching pass that runs
  the UNet model over an H×W×1 NDVI raster in 128×128 patches
  (app.py lines 126-167),
* the NDVI min-max normalization (app.py lines 111-116),
* the fetch-and-predict button action with its single try/except handler
  (app.py lines 68-192), the model-loading function with its None results
  (app.py lines 40-57), and the session-level memoization of the model
  loader versus the uncached NDVI fetch.

Rasters and tiles are represented as total functions from pixel
coordinates to rationals together with explicit shape fields; the model is
an abstract parameter (a function from a tile to a prediction grid, with
the batched call embedded as a map over the batch list, plus an
instrumented variant that records each batch the model is invoked on).
-/

namespace App

/-- Patch size used by the tiling loop (PATCH_SIZE = 128 in app.py). -/
def PATCH_SIZE : Nat := 128

/-- A raster in memory: height, width, channel count, and the pixel data
(indexed row, column; the single channel is implicit in the data). -/
structure Raster where
  h : Nat
  w : Nat
  ch : Nat
  data : Nat → Nat → ℚ

/-- A tile cut from a raster, with its own shape. -/
structure Tile where
  h : Nat
  w : Nat
  ch : Nat
  data : Nat → Nat → ℚ

/-- The step that turns the normalized 2-D NDVI array into the H×W×1
model input (ndvi_input = ndvi_normalized[..., np.newaxis]). -/
def toInput (nd : Nat → Nat → ℚ) (H W : Nat) : Raster :=
  ⟨H, W, 1, nd⟩

/-- Number of tile rows (or columns) the Python loop
for i in range(0, n, PATCH_SIZE) produces: the ceiling of n / 128. -/
def numTiles (n : Nat) : Nat :=
  (n + PATCH_SIZE - 1) / PATCH_SIZE

/-- The values taken by the loop index i in range(0, n, PATCH_SIZE):
the multiples of 128 below n. -/
def tileStarts (n : Nat) : List Nat :=
  (List.range (numTiles n)).map (fun a => PATCH_SIZE * a)

/-- All (i, j) pairs visited by the nested tiling loops, in loop order. -/
def indexPairs (H W : Nat) : List (Nat × Nat) :=
  (tileStarts H).flatMap (fun i => (tileStarts W).map (fun j => (i, j)))

/-- Slicing tile = ndvi_input[i:i_end, j:j_end, :]. -/
def extractTile (inp : Raster) (i j i_end j_end : Nat) : Tile :=
  ⟨i_end - i, j_end - j, inp.ch, fun r c => inp.data (i + r) (j + c)⟩

/-- np.pad(tile, ((0, PATCH_SIZE - h), (0, PATCH_SIZE - w), (0, 0)),
mode constant), applied only when the tile is smaller than the patch
size in some dimension, exactly as in app.py lines 142-145. -/
def padTile (t : Tile) : Tile :=
  if t.h < PATCH_SIZE ∨ t.w < PATCH_SIZE then
    ⟨t.h + (PATCH_SIZE - t.h), t.w + (PATCH_SIZE - t.w), t.ch,
     fun r c => if r < t.h ∧ c < t.w then t.data r c else 0⟩
  else t

/-- A coordinate record (i, j, tile_h, tile_w) as appended to coords. -/
abbrev Coord : Type := Nat × Nat × Nat × Nat

/-- The body of the tiling loops for one (i, j): compute i_end, j_end,
cut the tile, pad it, and either keep (padded, coord) or skip it when the
padded shape is wrong (the else branch with the skip warning). -/
def tileStep (inp : Raster) (ij : Nat × Nat) : Option (Tile × Coord) :=
  let i := ij.1
  let j := ij.2
  let i_end := min (i + PATCH_SIZE) inp.h
  let j_end := min (j + PATCH_SIZE) inp.w
  let tile := extractTile inp i j i_end j_end
  let padded := padTile tile
  if padded.h = PATCH_SIZE ∧ padded.w = PATCH_SIZE then
    some (padded, (i, j, i_end - i, j_end - j))
  else
    none

/-- Running the tiling loops: the parallel tiles/coords lists (paired,
since both are appended together), plus a count of executions of the
skip-tile else branch. -/
def tileLoop (inp : Raster) : List (Tile × Coord) × Nat :=
  (indexPairs inp.h inp.w).foldr
    (fun ij acc =>
      match tileStep inp ij with
      | some tc => (tc :: acc.1, acc.2)
      | none => (acc.1, acc.2 + 1))
    ([], 0)

/-- The tiles list built by the loop. -/
def tilesOf (inp : Raster) : List Tile :=
  (tileLoop inp).1.map Prod.fst

/-- The coords list built by the loop. -/
def coordsOf (inp : Raster) : List Coord :=
  (tileLoop inp).1.map Prod.snd

/-- Whether pixel (r, c) of the full mask lies in the rectangle recorded
by a coordinate entry (i, j, tile_h, tile_w). -/
def inRect (q : Coord) (r c : Nat) : Prop :=
  q.1 ≤ r ∧ r < q.1 + q.2.2.1 ∧ q.2.1 ≤ c ∧ c < q.2.1 + q.2.2.2

instance (q : Coord) (r c : Nat) : Decidable (inRect q r c) := by
  unfold inRect; infer_instance

/-- One assignment full_mask[i:i+tile_h, j:j+tile_w] = pred_tile, as a
function update: inside the rectangle the mask now reads the prediction
tile at the offset, elsewhere it keeps its previous values. -/
def writeTile (mask : Nat → Nat → Bool) (p : (Nat → Nat → Bool) × Coord) :
    Nat → Nat → Bool :=
  fun r c =>
    if inRect p.2 r c then p.1 (r - p.2.1) (c - p.2.2.1) else mask r c

/-- The reconstruction loop: starting from full_mask = zeros, write every
prediction tile into its rectangle, in list order. -/
def stitchAll (l : List ((Nat → Nat → Bool) × Coord)) : Nat → Nat → Bool :=
  l.foldl writeTile (fun _ _ => false)

/-- Thresholding a prediction grid at 0.5 (preds = model.predict(...) > 0.5). -/
def threshold (p : Nat → Nat → ℚ) : Nat → Nat → Bool :=
  fun r c => decide ((1 : ℚ) / 2 < p r c)

/-- The whole pass with an abstract batched model. The model is invoked
on the stacked batch of all tiles only when the tiles list is nonempty
(the if tiles: guard); the second component records every batch the model
was invoked on, in order. -/
def runPassInstr (predictBatch : List Tile → List (Nat → Nat → ℚ))
    (inp : Raster) : (Nat → Nat → Bool) × List (List Tile) :=
  let tc := (tileLoop inp).1
  let tiles := tc.map Prod.fst
  if tiles.isEmpty then
    ((fun _ _ => false), [])
  else
    let preds := predictBatch tiles
    let predsB := preds.map threshold
    (stitchAll (predsB.zip (tc.map Prod.snd)), [tiles])

/-- The full mask produced by the pass when the batched model applies a
fixed per-tile model to every element of the batch. -/
def runPass (model : Tile → Nat → Nat → ℚ) (inp : Raster) :
    Nat → Nat → Bool :=
  (runPassInstr (fun batch => batch.map model) inp).1

/-- The coordinate record produced for loop indices (i, j). -/
def coordAt (H W i j : Nat) : Coord :=
  (i, j, min (i + PATCH_SIZE) H - i, min (j + PATCH_SIZE) W - j)

/-- The padded tile produced for loop indices (i, j). -/
def tileAt (inp : Raster) (i j : Nat) : Tile :=
  padTile (extractTile inp i j (min (i + PATCH_SIZE) inp.h)
    (min (j + PATCH_SIZE) inp.w))

/-- The tile/coordinate pair produced for one loop index pair. -/
def mkTC (inp : Raster) (ij : Nat × Nat) : Tile × Coord :=
  (tileAt inp ij.1 ij.2, coordAt inp.h inp.w ij.1 ij.2)

lemma extractTile_h (inp : Raster) (i j i_end j_end : Nat) :
    (extractTile inp i j i_end j_end).h = i_end - i := rfl

lemma extractTile_w (inp : Raster) (i j i_end j_end : Nat) :
    (extractTile inp i j i_end j_end).w = j_end - j := rfl

/-- A tile no larger than the patch size pads to exactly the patch size. -/
lemma padTile_shape (t : Tile) (hh : t.h ≤ PATCH_SIZE) (hw : t.w ≤ PATCH_SIZE) :
    (padTile t).h = PATCH_SIZE ∧ (padTile t).w = PATCH_SIZE := by
  unfold padTile
  split
  · exact ⟨by show t.h + (PATCH_SIZE - t.h) = PATCH_SIZE; omega,
      by show t.w + (PATCH_SIZE - t.w) = PATCH_SIZE; omega⟩
  · next hn => exact ⟨by omega, by omega⟩

lemma tileAt_shape (inp : Raster) (i j : Nat) :
    (tileAt inp i j).h = PATCH_SIZE ∧ (tileAt inp i j).w = PATCH_SIZE := by
  unfold tileAt
  apply padTile_shape <;> simp [extractTile_h, extractTile_w] <;> omega

/-- The shape check in the loop always passes: the step never skips. -/
lemma tileStep_eq (inp : Raster) (ij : Nat × Nat) :
    tileStep inp ij = some (mkTC inp ij) := by
  unfold tileStep
  simp only []
  rw [if_pos]
  · rfl
  · exact tileAt_shape inp ij.1 ij.2

/-- The tiling loop produces exactly one tile/coord pair per index pair,
in loop order, and never executes the skip branch. -/
lemma tileLoop_eq (inp : Raster) :
    tileLoop inp = ((indexPairs inp.h inp.w).map (mkTC inp), 0) := by
  unfold tileLoop
  induction indexPairs inp.h inp.w with
  | nil => rfl
  | cons ij rest ih =>
    rw [List.foldr_cons, ih, tileStep_eq]
    rfl

lemma tilesOf_eq (inp : Raster) :
    tilesOf inp = (indexPairs inp.h inp.w).map (fun ij => tileAt inp ij.1 ij.2) := by
  unfold tilesOf
  rw [tileLoop_eq]
  simp [mkTC]

lemma coordsOf_eq (inp : Raster) :
    coordsOf inp =
      (indexPairs inp.h inp.w).map (fun ij => coordAt inp.h inp.w ij.1 ij.2) := by
  unfold coordsOf
  rw [tileLoop_eq]
  simp [mkTC]

/-- Membership in the loop index values: the multiples of 128 below n. -/
lemma mem_tileStarts (n i : Nat) :
    i ∈ tileStarts n ↔ ∃ a, i = PATCH_SIZE * a ∧ PATCH_SIZE * a < n := by
  unfold tileStarts numTiles PATCH_SIZE
  simp only [List.mem_map, List.mem_range]
  constructor
  · rintro ⟨a, ha, rfl⟩
    exact ⟨a, rfl, by omega⟩
  · rintro ⟨a, rfl, ha⟩
    exact ⟨a, by omega, rfl⟩

lemma mem_indexPairs (H W : Nat) (ij : Nat × Nat) :
    ij ∈ indexPairs H W ↔
      (∃ a, ij.1 = PATCH_SIZE * a ∧ PATCH_SIZE * a < H) ∧
      (∃ b, ij.2 = PATCH_SIZE * b ∧ PATCH_SIZE * b < W) := by
  unfold indexPairs
  rw [List.mem_flatMap]
  constructor
  · rintro ⟨i, hi, hj⟩
    rw [List.mem_map] at hj
    obtain ⟨j, hj, rfl⟩ := hj
    exact ⟨(mem_tileStarts H i).1 hi, (mem_tileStarts W j).1 hj⟩
  · rintro ⟨hi, hj⟩
    refine ⟨ij.1, (mem_tileStarts H ij.1).2 hi, ?_⟩
    rw [List.mem_map]
    exact ⟨ij.2, (mem_tileStarts W ij.2).2 hj, rfl⟩

lemma nodup_tileStarts (n : Nat) : (tileStarts n).Nodup := by
  unfold tileStarts
  refine List.Nodup.map ?_ (List.nodup_range _)
  intro a b hab
  simp only [PATCH_SIZE] at hab
  omega

lemma nodup_indexPairs (H W : Nat) : (indexPairs H W).Nodup := by
  unfold indexPairs
  rw [List.nodup_flatMap]
  constructor
  · intro i _
    refine List.Nodup.map ?_ (nodup_tileStarts W)
    intro a b hab
    exact congrArg Prod.snd hab
  · have hlt : List.Pairwise (· < ·) (tileStarts H) := by
      unfold tileStarts
      refine List.Pairwise.map _ ?_ (List.pairwise_lt_range _)
      intro a b hab
      simp only [PATCH_SIZE]
      omega
    refine hlt.imp ?_
    intro i i' hii
    intro x hx hx'
    rw [List.mem_map] at hx hx'
    obtain ⟨j, _, rfl⟩ := hx
    obtain ⟨j', _, h⟩ := hx'
    have : i' = i := congrArg Prod.fst h
    omega

/-- Value of the stitched mask at a pixel: the prediction of the last
written rectangle containing it, or the initial value if none does. -/
lemma foldl_writeTile (l : List ((Nat → Nat → Bool) × Coord))
    (m : Nat → Nat → Bool) (r c : Nat) :
    l.foldl writeTile m r c =
      match l.reverse.find? (fun p => decide (inRect p.2 r c)) with
      | some p => p.1 (r - p.2.1) (c - p.2.2.1)
      | none => m r c := by
  induction l generalizing m with
  | nil => rfl
  | cons x t ih =>
    rw [List.foldl_cons, ih, List.reverse_cons, List.find?_append]
    cases h : t.reverse.find? (fun p => decide (inRect p.2 r c)) with
    | some p => rfl
    | none =>
      rw [Option.none_or]
      by_cases hx : inRect x.2 r c
      · have hfind : List.find? (fun p => decide (inRect p.2 r c)) [x] = some x := by
          simp [List.find?, hx]
        rw [hfind]
        show writeTile m x r c = x.1 (r - x.2.1) (c - x.2.2.1)
        unfold writeTile
        rw [if_pos hx]
      · have hfind : List.find? (fun p => decide (inRect p.2 r c)) [x] = none := by
          simp [List.find?, hx]
        rw [hfind]
        show writeTile m x r c = m r c
        unfold writeTile
        rw [if_neg hx]

lemma stitchAll_eq (l : List ((Nat → Nat → Bool) × Coord)) (r c : Nat) :
    stitchAll l r c =
      match l.reverse.find? (fun p => decide (inRect p.2 r c)) with
      | some p => p.1 (r - p.2.1) (c - p.2.2.1)
      | none => false := by
  unfold stitchAll
  exact foldl_writeTile l _ r c

/-- find? returns the unique satisfying element of a list. -/
lemma find_eq_some_of_unique {α : Type} (p : α → Bool) (l : List α) (x : α)
    (hx : x ∈ l) (hpx : p x = true)
    (huniq : ∀ y ∈ l, p y = true → y = x) :
    l.find? p = some x := by
  induction l with
  | nil => cases hx
  | cons z t ih =>
    by_cases hz : p z = true
    · rw [List.find?_cons_of_pos _ hz]
      rw [huniq z (List.mem_cons_self z t) hz]
    · rw [List.find?_cons_of_neg _ hz]
      have hxt : x ∈ t := by
        rcases List.mem_cons.1 hx with rfl | h
        · exact absurd hpx hz
        · exact h
      exact ih hxt (fun y hy => huniq y (List.mem_cons_of_mem z hy))

/-- For an in-bounds pixel (r, c), containment in the rectangle recorded
for loop indices (i, j) holds exactly for the tile starts determined by
integer division. -/
lemma inRect_coordAt_iff (H W r c : Nat) (hr : r < H) (hc : c < W)
    (ij : Nat × Nat) (hij : ij ∈ indexPairs H W) :
    (inRect (coordAt H W ij.1 ij.2) r c ↔
      ij = (PATCH_SIZE * (r / PATCH_SIZE), PATCH_SIZE * (c / PATCH_SIZE))) := by
  rw [mem_indexPairs] at hij
  obtain ⟨⟨a, ha, haH⟩, ⟨b, hb, hbW⟩⟩ := hij
  obtain ⟨i, j⟩ := ij
  simp only at ha hb
  subst ha hb
  unfold inRect coordAt PATCH_SIZE
  simp only [Prod.mk.injEq]
  simp only [PATCH_SIZE] at haH hbW
  constructor
  · rintro ⟨h1, h2, h3, h4⟩
    omega
  · rintro ⟨h1, h2⟩
    omega

/-- The pair of tile starts containing an in-bounds pixel is visited by
the loop. -/
lemma start_pair_mem (H W r c : Nat) (hr : r < H) (hc : c < W) :
    (PATCH_SIZE * (r / PATCH_SIZE), PATCH_SIZE * (c / PATCH_SIZE)) ∈
      indexPairs H W := by
  rw [mem_indexPairs]
  constructor
  · exact ⟨r / PATCH_SIZE, rfl, by unfold PATCH_SIZE; omega⟩
  · exact ⟨c / PATCH_SIZE, rfl, by unfold PATCH_SIZE; omega⟩

/-- When at least one tile exists, the pass reduces to stitching the
thresholded per-tile predictions over the recorded rectangles. -/
lemma runPass_eq_stitch (model : Tile → Nat → Nat → ℚ) (inp : Raster)
    (hne : indexPairs inp.h inp.w ≠ []) :
    runPass model inp =
      stitchAll ((indexPairs inp.h inp.w).map
        (fun ij => (threshold (model (tileAt inp ij.1 ij.2)),
          coordAt inp.h inp.w ij.1 ij.2))) := by
  unfold runPass runPassInstr
  simp only [tileLoop_eq]
  have hempty : (((indexPairs inp.h inp.w).map (mkTC inp)).map Prod.fst).isEmpty = false := by
    simp [List.isEmpty_iff, hne]
  rw [hempty]
  simp only [Bool.false_eq_true, if_false, List.map_map]
  rw [List.zip_map']
  rfl

/-- C1 helper: value of the full mask at an in-bounds pixel. -/
lemma runPass_value (model : Tile → Nat → Nat → ℚ) (inp : Raster)
    (r c : Nat) (hr : r < inp.h) (hc : c < inp.w) :
    runPass model inp r c =
      threshold (model (tileAt inp (PATCH_SIZE * (r / PATCH_SIZE))
        (PATCH_SIZE * (c / PATCH_SIZE))))
        (r - PATCH_SIZE * (r / PATCH_SIZE)) (c - PATCH_SIZE * (c / PATCH_SIZE)) := by
  have hmem := start_pair_mem inp.h inp.w r c hr hc
  rw [runPass_eq_stitch model inp (List.ne_nil_of_mem hmem)]
  rw [stitchAll_eq]
  rw [← List.map_reverse]
  rw [List.find?_map]
  have hfind :
      (indexPairs inp.h inp.w).reverse.find?
        ((fun p : (Nat → Nat → Bool) × Coord => decide (inRect p.2 r c)) ∘
          (fun ij : Nat × Nat => (threshold (model (tileAt inp ij.1 ij.2)),
            coordAt inp.h inp.w ij.1 ij.2))) =
        some (PATCH_SIZE * (r / PATCH_SIZE), PATCH_SIZE * (c / PATCH_SIZE)) := by
    apply find_eq_some_of_unique
    · exact List.mem_reverse.2 hmem
    · simp only [Function.comp_apply, decide_eq_true_eq]
      exact (inRect_coordAt_iff inp.h inp.w r c hr hc _ hmem).2 rfl
    · intro y hy hpy
      simp only [Function.comp_apply, decide_eq_true_eq] at hpy
      exact (inRect_coordAt_iff inp.h inp.w r c hr hc y
        (List.mem_reverse.1 hy)).1 hpy
  rw [hfind]
  rfl

/-- A duplicate-free list with a unique satisfier has predicate count one. -/
lemma countP_eq_one_of_unique {α : Type} (p : α → Bool) (l : List α) (x : α)
    (hl : l.Nodup) (hx : x ∈ l) (hpx : p x = true)
    (huniq : ∀ y ∈ l, p y = true → y = x) :
    l.countP p = 1 := by
  induction l with
  | nil => cases hx
  | cons z t ih =>
    have hz_t : z ∉ t := (List.nodup_cons.1 hl).1
    have ht : t.Nodup := (List.nodup_cons.1 hl).2
    rw [List.countP_cons]
    rcases List.mem_cons.1 hx with rfl | hxt
    · have h0 : t.countP p = 0 := by
        rw [List.countP_eq_zero]
        intro y hy hpy
        exact hz_t (huniq y (List.mem_cons_of_mem x hy) hpy ▸ hy)
      rw [h0, hpx]
      rfl
    · have hpz : p z ≠ true := by
        intro hpz
        have := huniq z (List.mem_cons_self z t) hpz
        exact hz_t (this ▸ hxt)
      rw [if_neg hpz, ih ht hxt (fun y hy => huniq y (List.mem_cons_of_mem z hy))]

/-- C1 helper: each in-bounds pixel lies in exactly one recorded rectangle. -/
lemma coords_countP (inp : Raster) (r c : Nat) (hr : r < inp.h) (hc : c < inp.w) :
    (coordsOf inp).countP (fun q => decide (inRect q r c)) = 1 := by
  rw [coordsOf_eq, List.countP_map]
  apply countP_eq_one_of_unique _ _
    (PATCH_SIZE * (r / PATCH_SIZE), PATCH_SIZE * (c / PATCH_SIZE))
    (nodup_indexPairs inp.h inp.w) (start_pair_mem inp.h inp.w r c hr hc)
  · simp only [Function.comp_apply, decide_eq_true_eq]
    exact (inRect_coordAt_iff inp.h inp.w r c hr hc _
      (start_pair_mem inp.h inp.w r c hr hc)).2 rfl
  · intro y hy hpy
    simp only [Function.comp_apply, decide_eq_true_eq] at hpy
    exact (inRect_coordAt_iff inp.h inp.w r c hr hc y hy).1 hpy

/-- No recorded rectangle reaches past the raster bounds, so the mask is
never written outside the H×W index set. -/
lemma not_inRect_out_of_bounds (H W r c : Nat) (hout : H ≤ r ∨ W ≤ c)
    (ij : Nat × Nat) (hij : ij ∈ indexPairs H W) :
    ¬ inRect (coordAt H W ij.1 ij.2) r c := by
  rw [mem_indexPairs] at hij
  obtain ⟨⟨a, ha, haH⟩, ⟨b, hb, hbW⟩⟩ := hij
  obtain ⟨i, j⟩ := ij
  simp only at ha hb
  subst ha hb
  unfold inRect coordAt
  simp only
  omega

/-- Outside the raster the reconstructed mask keeps its zero initial value. -/
lemma runPass_out_of_bounds (model : Tile → Nat → Nat → ℚ) (inp : Raster)
    (r c : Nat) (hout : inp.h ≤ r ∨ inp.w ≤ c) :
    runPass model inp r c = false := by
  by_cases hne : indexPairs inp.h inp.w = []
  · unfold runPass runPassInstr
    simp [tileLoop_eq, hne]
  · rw [runPass_eq_stitch model inp hne, stitchAll_eq]
    have hnone : (((indexPairs inp.h inp.w).map
        (fun ij => (threshold (model (tileAt inp ij.1 ij.2)),
          coordAt inp.h inp.w ij.1 ij.2))).reverse.find?
        (fun p => decide (inRect p.2 r c))) = none := by
      rw [List.find?_eq_none]
      intro x hx
      rw [List.mem_reverse, List.mem_map] at hx
      obtain ⟨ij, hij, rfl⟩ := hx
      simp only [decide_eq_true_eq]
      exact not_inRect_out_of_bounds inp.h inp.w r c hout ij hij
    rw [hnone]

/-- A fixed concrete raster function used to instantiate the theorems. -/
def ndConst : Nat → Nat → ℚ := fun _ _ => 1

/-- A fixed concrete per-tile model used to instantiate the theorems:
it returns the tile's own data. -/
def modelData : Tile → Nat → Nat → ℚ := fun t r c => t.data r c

/-- C1: tiling with patch size 128 partitions the H×W index set: every
in-bounds pixel lies in exactly one recorded coordinate rectangle (no
gaps, no overlaps), and the reconstructed full mask at that pixel equals
the thresholded model prediction of the unique tile containing it,
evaluated at the pixel's offset inside that tile. -/
theorem claim_C1_partition_reconstruction
    (model : Tile → Nat → Nat → ℚ) (nd : Nat → Nat → ℚ) (H W r c : Nat)
    (hr : r < H) (hc : c < W) :
    (coordsOf (toInput nd H W)).countP (fun q => decide (inRect q r c)) = 1 ∧
    runPass model (toInput nd H W) r c =
      threshold (model (tileAt (toInput nd H W)
        (PATCH_SIZE * (r / PATCH_SIZE)) (PATCH_SIZE * (c / PATCH_SIZE))))
        (r % PATCH_SIZE) (c % PATCH_SIZE) := by
  refine ⟨coords_countP (toInput nd H W) r c hr hc, ?_⟩
  have h1 : r % PATCH_SIZE = r - PATCH_SIZE * (r / PATCH_SIZE) := by
    unfold PATCH_SIZE
    omega
  have h2 : c % PATCH_SIZE = c - PATCH_SIZE * (c / PATCH_SIZE) := by
    unfold PATCH_SIZE
    omega
  rw [h1, h2]
  exact runPass_value model (toInput nd H W) r c hr hc

/-- Witness instantiating C1 at a concrete 130×130 raster and pixel (128, 3). -/
theorem claim_C1_partition_reconstruction_witness :
    (coordsOf (toInput ndConst 130 130)).countP
        (fun q => decide (inRect q 128 3)) = 1 ∧
    runPass modelData (toInput ndConst 130 130) 128 3 =
      threshold (modelData (tileAt (toInput ndConst 130 130)
        (PATCH_SIZE * (128 / PATCH_SIZE)) (PATCH_SIZE * (3 / PATCH_SIZE))))
        (128 % PATCH_SIZE) (3 % PATCH_SIZE) :=
  claim_C1_partition_reconstruction modelData ndConst 130 130 128 3
    (by decide) (by decide)

/-- C2: an edge tile smaller than 128 in some dimension is padded to
exactly 128×128 with zeros on the bottom and right, and reassembly copies
only the original tile region: the mask is never written outside the H×W
bounds. -/
theorem claim_C2_padding_stripped
    (model : Tile → Nat → Nat → ℚ) (nd : Nat → Nat → ℚ) (H W : Nat)
    (ij : Nat × Nat) (_hij : ij ∈ indexPairs H W)
    (hedge : min (ij.1 + PATCH_SIZE) H - ij.1 < PATCH_SIZE ∨
      min (ij.2 + PATCH_SIZE) W - ij.2 < PATCH_SIZE) :
    ((tileAt (toInput nd H W) ij.1 ij.2).h = PATCH_SIZE ∧
      (tileAt (toInput nd H W) ij.1 ij.2).w = PATCH_SIZE) ∧
    (∀ r c, r < PATCH_SIZE → c < PATCH_SIZE →
      (tileAt (toInput nd H W) ij.1 ij.2).data r c =
        if r < min (ij.1 + PATCH_SIZE) H - ij.1 ∧
            c < min (ij.2 + PATCH_SIZE) W - ij.2 then
          nd (ij.1 + r) (ij.2 + c)
        else 0) ∧
    (∀ r c, H ≤ r ∨ W ≤ c → runPass model (toInput nd H W) r c = false) := by
  refine ⟨tileAt_shape (toInput nd H W) ij.1 ij.2, ?_, ?_⟩
  · intro r c _ _
    unfold tileAt padTile
    rw [if_pos]
    · rfl
    · exact hedge
  · intro r c hout
    exact runPass_out_of_bounds model (toInput nd H W) r c hout

/-- Witness instantiating C2 at the bottom-right edge tile of a 130×130
raster: the padded shape is 128×128, the data at offset (1, 5) is a
padding zero, and the mask at the out-of-bounds pixel (200, 0) is false. -/
theorem claim_C2_padding_stripped_witness :
    ((tileAt (toInput ndConst 130 130) 128 128).h = PATCH_SIZE ∧
      (tileAt (toInput ndConst 130 130) 128 128).w = PATCH_SIZE) ∧
    (tileAt (toInput ndConst 130 130) 128 128).data 1 5 =
      (if 1 < min (128 + PATCH_SIZE) 130 - 128 ∧
          5 < min (128 + PATCH_SIZE) 130 - 128 then
        ndConst (128 + 1) (128 + 5)
      else 0) ∧
    runPass modelData (toInput ndConst 130 130) 200 0 = false := by
  have h := claim_C2_padding_stripped modelData ndConst 130 130 (128, 128)
    (by decide) (by decide)
  exact ⟨h.1, h.2.1 1 5 (by decide) (by decide), h.2.2 200 0 (by decide)⟩

/-- C4: with the model held fixed, the whole tiling, padding, prediction
and stitching pass is deterministic: two runs on pointwise-equal input
rasters produce pointwise-equal full masks. -/
theorem claim_C4_deterministic_pass
    (model : Tile → Nat → Nat → ℚ) (nd1 nd2 : Nat → Nat → ℚ) (H W : Nat)
    (heq : ∀ r c, nd1 r c = nd2 r c) (r c : Nat) :
    runPass model (toInput nd1 H W) r c = runPass model (toInput nd2 H W) r c := by
  have : nd1 = nd2 := funext fun r => funext fun c => heq r c
  rw [this]

/-- Witness instantiating C4 at two syntactically distinct but pointwise
equal 130×130 rasters and pixel (3, 4). -/
theorem claim_C4_deterministic_pass_witness :
    runPass modelData (toInput ndConst 130 130) 3 4 =
      runPass modelData (toInput (fun r c => ndConst c r) 130 130) 3 4 :=
  claim_C4_deterministic_pass modelData ndConst (fun r c => ndConst c r)
    130 130 (fun _ _ => rfl) 3 4

/-- Padding does not change the channel dimension (the third pad width is
(0, 0)). -/
lemma padTile_ch (t : Tile) : (padTile t).ch = t.ch := by
  unfold padTile
  split <;> rfl

lemma tileAt_ch (inp : Raster) (i j : Nat) : (tileAt inp i j).ch = inp.ch := by
  unfold tileAt
  rw [padTile_ch]
  rfl

/-- The nested loops visit ceil(H/128) * ceil(W/128) index pairs. -/
lemma length_indexPairs (H W : Nat) :
    (indexPairs H W).length = numTiles H * numTiles W := by
  unfold indexPairs
  rw [List.length_flatMap]
  have hmap : (List.map (List.length ∘ fun i => (tileStarts W).map (fun j => (i, j)))
      (tileStarts H)) = List.map (fun _ => numTiles W) (tileStarts H) := by
    apply List.map_congr_left
    intro i _
    simp [tileStarts]
  rw [hmap, List.map_const', List.sum_replicate, smul_eq_mul]
  unfold tileStarts
  rw [List.length_map, List.length_range]

/-- Every tile kept by the loop is a padded 128×128 one-channel tile. -/
lemma tilesOf_shape (nd : Nat → Nat → ℚ) (H W : Nat) (t : Tile)
    (ht : t ∈ tilesOf (toInput nd H W)) :
    t.h = PATCH_SIZE ∧ t.w = PATCH_SIZE ∧ t.ch = 1 := by
  rw [tilesOf_eq, List.mem_map] at ht
  obtain ⟨ij, _, rfl⟩ := ht
  obtain ⟨h1, h2⟩ := tileAt_shape (toInput nd H W) ij.1 ij.2
  exact ⟨h1, h2, tileAt_ch (toInput nd H W) ij.1 ij.2⟩

/-- C3: the tiling step produces exactly ceil(H/128)·ceil(W/128) tiles,
each of shape 128×128×1, and the model is invoked exactly once, on the
single stacked batch holding all of those tiles (the instrumented pass
records exactly one batch, equal to the whole tiles list). -/
theorem claim_C3_tile_count_single_batch
    (predictBatch : List Tile → List (Nat → Nat → ℚ)) (nd : Nat → Nat → ℚ)
    (H W : Nat) (hH : 1 ≤ H) (hW : 1 ≤ W) :
    (runPassInstr predictBatch (toInput nd H W)).2 = [tilesOf (toInput nd H W)] ∧
    (tilesOf (toInput nd H W)).length = numTiles H * numTiles W ∧
    ∀ t ∈ tilesOf (toInput nd H W),
      t.h = PATCH_SIZE ∧ t.w = PATCH_SIZE ∧ t.ch = 1 := by
  refine ⟨?_, ?_, fun t ht => tilesOf_shape nd H W t ht⟩
  · have hmem : ((0, 0) : Nat × Nat) ∈ indexPairs H W :=
      start_pair_mem H W 0 0 hH hW
    have hne : tilesOf (toInput nd H W) ≠ [] := by
      rw [tilesOf_eq]
      exact List.ne_nil_of_mem (List.mem_map_of_mem _ hmem)
    unfold runPassInstr
    have hempty : (((tileLoop (toInput nd H W)).1).map Prod.fst).isEmpty = false := by
      rw [List.isEmpty_eq_false_iff_exists_mem]
      obtain ⟨t, ht⟩ := List.exists_mem_of_ne_nil _ hne
      exact ⟨t, ht⟩
    simp only [hempty, Bool.false_eq_true, if_false]
    rfl
  · rw [tilesOf_eq, List.length_map]
    exact length_indexPairs H W

/-- Witness instantiating C3 on a 130×130 raster: one recorded batch, 4
tiles in it, and the first tile has shape 128×128×1. -/
theorem claim_C3_tile_count_single_batch_witness :
    (runPassInstr (fun batch => batch.map modelData)
        (toInput ndConst 130 130)).2 = [tilesOf (toInput ndConst 130 130)] ∧
    (tilesOf (toInput ndConst 130 130)).length = numTiles 130 * numTiles 130 ∧
    ((tileAt (toInput ndConst 130 130) 0 0).h = PATCH_SIZE ∧
      (tileAt (toInput ndConst 130 130) 0 0).w = PATCH_SIZE ∧
      (tileAt (toInput ndConst 130 130) 0 0).ch = 1) := by
  have h := claim_C3_tile_count_single_batch (fun batch => batch.map modelData)
    ndConst 130 130 (by decide) (by decide)
  refine ⟨h.1, h.2.1, h.2.2 (tileAt (toInput ndConst 130 130) 0 0) ?_⟩
  rw [tilesOf_eq]
  exact List.mem_map.2 ⟨(0, 0), by decide, rfl⟩

/-- C5: every tile appended to the tiles list has shape exactly
(128, 128, 1), for every H×W×1 raster with H ≥ 1 and W ≥ 1. -/
theorem claim_C5_tile_shape_invariant
    (nd : Nat → Nat → ℚ) (H W : Nat) (_hH : 1 ≤ H) (_hW : 1 ≤ W)
    (t : Tile) (ht : t ∈ tilesOf (toInput nd H W)) :
    t.h = PATCH_SIZE ∧ t.w = PATCH_SIZE ∧ t.ch = 1 :=
  tilesOf_shape nd H W t ht

/-- Witness instantiating C5 at the bottom-right (padded) tile of a
130×130 raster. -/
theorem claim_C5_tile_shape_invariant_witness :
    (tileAt (toInput ndConst 130 130) 128 128).h = PATCH_SIZE ∧
    (tileAt (toInput ndConst 130 130) 128 128).w = PATCH_SIZE ∧
    (tileAt (toInput ndConst 130 130) 128 128).ch = 1 :=
  claim_C5_tile_shape_invariant ndConst 130 130 (by decide) (by decide)
    (tileAt (toInput ndConst 130 130) 128 128)
    (by rw [tilesOf_eq]; exact List.mem_map.2 ⟨(128, 128), by decide, rfl⟩)

/-- C6: the skip-tile else branch never executes (its counter stays 0),
the tiles and coords lists have equal length, and every recorded
coordinate satisfies 0 < tile_h ≤ 128, 0 < tile_w ≤ 128, i + tile_h ≤ H
and j + tile_w ≤ W, keeping all full-mask writes in bounds. -/
theorem claim_C6_skip_branch_unreachable (nd : Nat → Nat → ℚ) (H W : Nat) :
    (tileLoop (toInput nd H W)).2 = 0 ∧
    (tilesOf (toInput nd H W)).length = (coordsOf (toInput nd H W)).length ∧
    ∀ q ∈ coordsOf (toInput nd H W),
      0 < q.2.2.1 ∧ q.2.2.1 ≤ PATCH_SIZE ∧ 0 < q.2.2.2 ∧ q.2.2.2 ≤ PATCH_SIZE ∧
      q.1 + q.2.2.1 ≤ H ∧ q.2.1 + q.2.2.2 ≤ W := by
  refine ⟨by rw [tileLoop_eq], ?_, ?_⟩
  · rw [tilesOf_eq, coordsOf_eq, List.length_map, List.length_map]
  · intro q hq
    rw [coordsOf_eq, List.mem_map] at hq
    obtain ⟨ij, hij, rfl⟩ := hq
    rw [mem_indexPairs] at hij
    obtain ⟨⟨a, ha, haH⟩, ⟨b, hb, hbW⟩⟩ := hij
    obtain ⟨i, j⟩ := ij
    simp only at ha hb
    subst ha hb
    unfold coordAt
    simp only [toInput, PATCH_SIZE] at haH hbW ⊢
    refine ⟨by omega, by omega, by omega, by omega, by omega, by omega⟩

/-- Witness instantiating C6 on a 130×130 raster, reading off the
bottom-right coordinate record (128, 128, 2, 2). -/
theorem claim_C6_skip_branch_unreachable_witness :
    (tileLoop (toInput ndConst 130 130)).2 = 0 ∧
    (tilesOf (toInput ndConst 130 130)).length =
      (coordsOf (toInput ndConst 130 130)).length ∧
    (0 < (2 : Nat) ∧ (2 : Nat) ≤ PATCH_SIZE ∧ 0 < (2 : Nat) ∧
      (2 : Nat) ≤ PATCH_SIZE ∧ 128 + (2 : Nat) ≤ 130 ∧ 128 + (2 : Nat) ≤ 130) := by
  have h := claim_C6_skip_branch_unreachable ndConst 130 130
  exact ⟨h.1, h.2.1, h.2.2 (128, 128, 2, 2) (by decide)⟩

/-- The 1e-8 guard added to the normalization denominator. -/
def epsNDVI : ℚ := 1 / 100000000

/-- NDVI min-max normalization (app.py lines 111-116): with ndvi_min and
ndvi_max the array extrema, if ndvi_max - ndvi_min > 0 every entry x
becomes (x - ndvi_min) / (ndvi_max - ndvi_min + 1e-8); otherwise the
result is np.zeros_like(ndvi_data). The raster is flattened to the list
of its entries. -/
def normalizeNDVI (xs : List ℚ) : List ℚ :=
  let ndvi_min := xs.min?.getD 0
  let ndvi_max := xs.max?.getD 0
  if ndvi_max - ndvi_min > 0 then
    xs.map (fun x => (x - ndvi_min) / (ndvi_max - ndvi_min + epsNDVI))
  else
    xs.map (fun _ => 0)

lemma min?_spec (xs : List ℚ) (hne : xs ≠ []) :
    xs.min?.getD 0 ∈ xs ∧ ∀ b ∈ xs, xs.min?.getD 0 ≤ b := by
  haveI : Std.Antisymm (fun (a b : ℚ) => a ≤ b) := ⟨fun h1 h2 => le_antisymm h1 h2⟩
  cases h : xs.min? with
  | none => exact absurd (List.min?_eq_none_iff.1 h) hne
  | some a =>
    have := (List.min?_eq_some_iff le_refl min_choice
      (fun _ _ _ => le_min_iff)).1 h
    simpa using this

lemma max?_spec (xs : List ℚ) (hne : xs ≠ []) :
    xs.max?.getD 0 ∈ xs ∧ ∀ b ∈ xs, b ≤ xs.max?.getD 0 := by
  haveI : Std.Antisymm (fun (a b : ℚ) => a ≤ b) := ⟨fun h1 h2 => le_antisymm h1 h2⟩
  cases h : xs.max? with
  | none =>
    have : xs = [] := by
      cases xs with
      | nil => rfl
      | cons y t => simp [List.max?] at h
    exact absurd this hne
  | some a =>
    have := (List.max?_eq_some_iff le_refl max_choice
      (fun _ _ _ => max_le_iff)).1 h
    simpa using this

/-- C7: the normalization maps a constant raster (max = min) to all
zeros of the same shape; on a non-constant raster every output entry
lies in [0, 1] and the entries attaining the minimum are mapped to 0. -/
theorem claim_C7_normalization (xs : List ℚ) (hne : xs ≠ []) :
    ((∀ x ∈ xs, ∀ y ∈ xs, x = y) →
      normalizeNDVI xs = xs.map (fun _ => 0)) ∧
    ((∃ u ∈ xs, ∃ v ∈ xs, u ≠ v) →
      (xs.min?.getD 0 ∈ xs) ∧
      (∀ y ∈ normalizeNDVI xs, 0 ≤ y ∧ y ≤ 1) ∧
      (∀ (i : Nat) (hi : i < xs.length), xs.get ⟨i, hi⟩ = xs.min?.getD 0 →
        (normalizeNDVI xs)[i]? = some 0)) := by
  obtain ⟨hmin_mem, hmin_le⟩ := min?_spec xs hne
  obtain ⟨hmax_mem, hmax_ge⟩ := max?_spec xs hne
  constructor
  · intro hconst
    have heq : xs.max?.getD 0 = xs.min?.getD 0 :=
      hconst _ hmax_mem _ hmin_mem
    have hnot : ¬ (xs.max?.getD 0 - xs.min?.getD 0 > 0) := by
      rw [heq, sub_self]
      exact lt_irrefl 0
    unfold normalizeNDVI
    rw [if_neg hnot]
  · rintro ⟨u, hu, v, hv, huv⟩
    have hlt : xs.min?.getD 0 < xs.max?.getD 0 := by
      rcases lt_or_le (xs.min?.getD 0) (xs.max?.getD 0) with h | h
      · exact h
      · have h1 : u = xs.min?.getD 0 :=
          le_antisymm (le_trans (hmax_ge u hu) h) (hmin_le u hu)
        have h2 : v = xs.min?.getD 0 :=
          le_antisymm (le_trans (hmax_ge v hv) h) (hmin_le v hv)
        exact absurd (h1.trans h2.symm) huv
    have hpos : 0 < xs.max?.getD 0 - xs.min?.getD 0 := by linarith
    have hden : 0 < xs.max?.getD 0 - xs.min?.getD 0 + epsNDVI := by
      unfold epsNDVI
      linarith
    have hnorm : normalizeNDVI xs =
        xs.map (fun x => (x - xs.min?.getD 0) /
          (xs.max?.getD 0 - xs.min?.getD 0 + epsNDVI)) := by
      unfold normalizeNDVI
      rw [if_pos hpos]
    refine ⟨hmin_mem, ?_, ?_⟩
    · intro y hy
      rw [hnorm, List.mem_map] at hy
      obtain ⟨x, hx, rfl⟩ := hy
      constructor
      · apply div_nonneg _ (le_of_lt hden)
        have := hmin_le x hx
        linarith
      · rw [div_le_one hden]
        have h1 := hmax_ge x hx
        unfold epsNDVI
        linarith
    · intro i hi hxi
      rw [hnorm, List.getElem?_map]
      rw [List.getElem?_eq_getElem hi]
      rw [Option.map_some']
      have : xs[i] = xs.min?.getD 0 := hxi
      rw [this]
      rw [sub_self, zero_div]

/-- Witness instantiating C7 at the non-constant list [1, 3]: the
minimum 1 is a member, every normalized entry is in [0, 1], and position
0 (which holds the minimum) is mapped to 0. -/
theorem claim_C7_normalization_witness :
    (([(1 : ℚ), 3].min?.getD 0) ∈ [(1 : ℚ), 3]) ∧
    (∀ y ∈ normalizeNDVI [(1 : ℚ), 3], 0 ≤ y ∧ y ≤ 1) ∧
    (normalizeNDVI [(1 : ℚ), 3])[0]? = some 0 := by
  have h := (claim_C7_normalization [(1 : ℚ), 3] (by decide)).2
    ⟨1, by decide, 3, by decide, by norm_num⟩
  exact ⟨h.1, h.2.1, h.2.2 0 (by decide) (by decide)⟩

/-- The externally visible stages of the fetch-and-predict button action,
in program order: the Earth Engine query (collection filtering and
getDownloadURL), the raster download (urlopen and np.load), the tiling
plus model prediction, and the map rendering. -/
inductive Step
  | eeQuery
  | download
  | predictTiles
  | render
  deriving DecidableEq, Fintype

/-- The user-facing message produced by the single surrounding handler
(st.error in the except clause at app.py line 192). -/
def errorMessage (e : String) : String :=
  "An error occurred during data fetching or prediction: " ++ e

/-- The body of the fetch-and-predict action inside its single
try/except handler. Each external stage either returns a value or raises
an exception carrying a message; the first exception transfers control to
the handler, which surfaces the message, and nothing after the failing
stage runs. The first component lists the stages that executed, in
order; the second is the surfaced error message, if any. -/
def fetchAndPredict {Q R M : Type} (query : Except String Q)
    (download : Q → Except String R) (predictTiles : R → Except String M) :
    List Step × Option String :=
  match query with
  | .error e => ([Step.eeQuery], some (errorMessage e))
  | .ok q =>
    match download q with
    | .error e => ([Step.eeQuery, Step.download], some (errorMessage e))
    | .ok r =>
      match predictTiles r with
      | .error e =>
        ([Step.eeQuery, Step.download, Step.predictTiles],
          some (errorMessage e))
      | .ok _ =>
        ([Step.eeQuery, Step.download, Step.predictTiles, Step.render],
          none)

/-- C8: every exception raised by the Earth Engine query, the download,
or the prediction is surfaced by the single surrounding handler as the
user-facing message, the action aborts (the executed stages are a strict
prefix of the pipeline that stops at the failing stage, so the map is
never rendered), and no stage runs twice (no retries). -/
theorem claim_C8_single_handler_aborts {Q R M : Type}
    (query : Except String Q) (download : Q → Except String R)
    (predictTiles : R → Except String M) (e : String)
    (hfail : query = .error e ∨
      (∃ q, query = .ok q ∧ download q = .error e) ∨
      (∃ q r, query = .ok q ∧ download q = .ok r ∧
        predictTiles r = .error e)) :
    (fetchAndPredict query download predictTiles).2 = some (errorMessage e) ∧
    Step.render ∉ (fetchAndPredict query download predictTiles).1 ∧
    ((fetchAndPredict query download predictTiles).1 = [Step.eeQuery] ∨
      (fetchAndPredict query download predictTiles).1 =
        [Step.eeQuery, Step.download] ∨
      (fetchAndPredict query download predictTiles).1 =
        [Step.eeQuery, Step.download, Step.predictTiles]) ∧
    (∀ s : Step, (fetchAndPredict query download predictTiles).1.count s ≤ 1) := by
  rcases hfail with rfl | ⟨q, hq, hd⟩ | ⟨q, r, hq, hd, hp⟩
  · have hcase : fetchAndPredict (Except.error e : Except String Q)
        download predictTiles = ([Step.eeQuery], some (errorMessage e)) := rfl
    rw [hcase]
    exact ⟨rfl, by show Step.render ∉ [Step.eeQuery]; decide, Or.inl rfl,
      by show ∀ s : Step, List.count s [Step.eeQuery] ≤ 1; decide⟩
  · subst hq
    have hcase : fetchAndPredict (Except.ok q) download predictTiles =
        ([Step.eeQuery, Step.download], some (errorMessage e)) := by
      unfold fetchAndPredict
      dsimp only
      rw [hd]
    rw [hcase]
    exact ⟨rfl, by show Step.render ∉ [Step.eeQuery, Step.download]; decide,
      Or.inr (Or.inl rfl),
      by show ∀ s : Step, List.count s [Step.eeQuery, Step.download] ≤ 1; decide⟩
  · subst hq
    have hcase : fetchAndPredict (Except.ok q) download predictTiles =
        ([Step.eeQuery, Step.download, Step.predictTiles],
          some (errorMessage e)) := by
      unfold fetchAndPredict
      dsimp only
      rw [hd]
      dsimp only
      rw [hp]
    rw [hcase]
    exact ⟨rfl,
      by show Step.render ∉ [Step.eeQuery, Step.download, Step.predictTiles]; decide,
      Or.inr (Or.inr rfl),
      by show ∀ s : Step,
        List.count s [Step.eeQuery, Step.download, Step.predictTiles] ≤ 1; decide⟩

/-- Witness instantiating C8 with a prediction stage that raises. -/
theorem claim_C8_single_handler_aborts_witness :
    (fetchAndPredict (Except.ok 1) (fun _ : Nat => Except.ok 2)
      (fun _ : Nat => (Except.error "boom" : Except String Nat))).2 =
        some (errorMessage "boom") ∧
    Step.render ∉ (fetchAndPredict (Except.ok 1) (fun _ : Nat => Except.ok 2)
      (fun _ : Nat => (Except.error "boom" : Except String Nat))).1 ∧
    ((fetchAndPredict (Except.ok 1) (fun _ : Nat => Except.ok 2)
        (fun _ : Nat => (Except.error "boom" : Except String Nat))).1 =
          [Step.eeQuery] ∨
      (fetchAndPredict (Except.ok 1) (fun _ : Nat => Except.ok 2)
        (fun _ : Nat => (Except.error "boom" : Except String Nat))).1 =
          [Step.eeQuery, Step.download] ∨
      (fetchAndPredict (Except.ok 1) (fun _ : Nat => Except.ok 2)
        (fun _ : Nat => (Except.error "boom" : Except String Nat))).1 =
          [Step.eeQuery, Step.download, Step.predictTiles]) ∧
    (∀ s : Step, (fetchAndPredict (Except.ok 1) (fun _ : Nat => Except.ok 2)
      (fun _ : Nat => (Except.error "boom" : Except String Nat))).1.count s ≤ 1) :=
  claim_C8_single_handler_aborts (Except.ok 1) (fun _ => Except.ok 2)
    (fun _ => Except.error "boom") "boom"
    (Or.inr (Or.inr ⟨1, 2, rfl, rfl, rfl⟩))

/-- load_unet_model (app.py lines 40-57): if the model file does not
exist, emit an error and return None; otherwise try to load it, emitting
an error and returning None when loading raises. The first component is
the returned model, the second the emitted error message, if any. -/
def load_unet_model {M : Type} (fileExists : Bool)
    (loadResult : Except String M) : Option M × Option String :=
  if fileExists then
    match loadResult with
    | .ok m => (some m, none)
    | .error e => (none, some ("Error loading model: " ++ e))
  else
    (none,
      some "Model file not found at unet_best.h5. Please train and save the model first.")

/-- The body of the Fetch NDVI and Predict Landslides button: with the
model is not None guard, the fetch-and-predict pipeline runs only when a
model was loaded; with None it is a no-op. -/
def clickHandler {M Q R N : Type} (model : Option M)
    (query : Except String Q) (download : Q → Except String R)
    (predictTiles : R → Except String N) : List Step × Option String :=
  match model with
  | none => ([], none)
  | some _ => fetchAndPredict query download predictTiles

/-- C9: when the model file is missing or loading raises, load_unet_model
returns None after emitting an error message, and the button action then
performs no Earth Engine query, no download and no prediction: its body
is a no-op. -/
theorem claim_C9_model_none_guard {M Q R N : Type} (fileExists : Bool)
    (loadResult : Except String M) (query : Except String Q)
    (download : Q → Except String R) (predictTiles : R → Except String N)
    (hfail : fileExists = false ∨ ∃ e, loadResult = .error e) :
    (load_unet_model fileExists loadResult).1 = none ∧
    (load_unet_model fileExists loadResult).2.isSome = true ∧
    clickHandler (load_unet_model fileExists loadResult).1 query download
      predictTiles = ([], none) := by
  have hnone : load_unet_model fileExists loadResult =
      (none, (load_unet_model fileExists loadResult).2) ∧
      (load_unet_model fileExists loadResult).2.isSome = true := by
    rcases hfail with rfl | ⟨e, rfl⟩
    · exact ⟨rfl, rfl⟩
    · unfold load_unet_model
      rcases fileExists with _ | _ <;> exact ⟨rfl, rfl⟩
  refine ⟨?_, hnone.2, ?_⟩
  · rw [hnone.1]
  · rw [hnone.1]
    rfl

/-- Witness instantiating C9 with a missing model file. -/
theorem claim_C9_model_none_guard_witness :
    (load_unet_model false (Except.ok 7)).1 = none ∧
    (load_unet_model false (Except.ok 7)).2.isSome = true ∧
    clickHandler (load_unet_model false (Except.ok 7)).1
      (Except.ok 1) (fun _ : Nat => Except.ok 2)
      (fun _ : Nat => (Except.ok 3 : Except String Nat)) = ([], none) :=
  claim_C9_model_none_guard false (Except.ok 7) (Except.ok 1)
    (fun _ => Except.ok 2) (fun _ => Except.ok 3) (Or.inl rfl)

/-- The per-session state relevant to caching: the st.cache_resource memo
for load_unet_model (none while not yet computed, keyed by the function's
empty call signature), and the number of Earth Engine queries issued so
far in the session. -/
structure Session (M : Type) where
  modelCache : Option (Option M)
  queryCount : Nat

/-- Calling the st.cache_resource-decorated loader: on a cache hit the
memoized result is returned and the underlying loader does not run; on a
miss the loader runs once and its result is stored. Returns the result,
the new session state, and how many times the underlying loader ran. -/
def loadCachedModel {M : Type} (loader : Unit → Option M) (s : Session M) :
    Option M × Session M × Nat :=
  match s.modelCache with
  | some m => (m, s, 0)
  | none => (loader (), ⟨some (loader ()), s.queryCount⟩, 1)

/-- The manual refresh action that clears the memoized results
(invalidating the session cache). -/
def clearCaches {M : Type} (s : Session M) : Session M :=
  ⟨none, s.queryCount⟩

/-- One click of the Fetch NDVI and Predict Landslides button: when a
model is loaded, the body issues the Earth Engine NDVI query directly —
nothing in it is memoized — so the session query count grows; with no
model the body is skipped. -/
def clickFetch {M : Type} (model : Option M) (s : Session M) : Session M :=
  if model.isSome then ⟨s.modelCache, s.queryCount + 1⟩ else s

/-- C10 as written is false on the code: the NDVI fetch is not memoized,
so clicking the button twice with the same arguments issues the external
query twice, not once. Concretely, from a fresh session, two identical
clicks with a loaded model leave the query count at 2. -/
theorem claim_C10_counterexample :
    (clickFetch (some 0) (clickFetch (some 0)
      (⟨none, 0⟩ : Session Nat))).queryCount = 2 ∧ (2 : Nat) ≠ 1 := by
  exact ⟨rfl, by decide⟩

/-- C10 amended: only the model loader is memoized. Its result is keyed
by the call signature, reused within the session (the underlying loader
runs on the first call and not on the second, which returns the same
result), and invalidated by the manual refresh action (after which the
loader runs again); the NDVI fetch is not cached, and every button click
with a loaded model re-issues the external query. -/
theorem claim_C10_memoization {M : Type} (loader : Unit → Option M)
    (q0 : Nat) (m : M) (s : Session M) :
    (loadCachedModel loader (⟨none, q0⟩ : Session M)).2.2 = 1 ∧
    (loadCachedModel loader
      (loadCachedModel loader (⟨none, q0⟩ : Session M)).2.1).2.2 = 0 ∧
    (loadCachedModel loader
      (loadCachedModel loader (⟨none, q0⟩ : Session M)).2.1).1 =
      (loadCachedModel loader (⟨none, q0⟩ : Session M)).1 ∧
    (loadCachedModel loader (clearCaches s)).2.2 = 1 ∧
    (clickFetch (some m) s).queryCount = s.queryCount + 1 :=
  ⟨rfl, rfl, rfl, rfl, rfl⟩

end App
